import Mathlib

/-!
Shallow embedding of the node-acme client (lib/acme-util.js and
lib/acme-protocol.js) together with proofs of the specified properties:
base64url coding, JWK validation, link-header parsing, the nonce pool,
directory memoization and the workflow operations.
-/

set_option maxHeartbeats 1000000

namespace NodeAcme

/-- A model of the JavaScript values this client manipulates: undefined, null,
booleans, numbers, strings, arrays and plain objects (a list of own
properties in insertion order). -/
inductive JSValue where
  | undefined : JSValue
  | null : JSValue
  | bool (b : Bool) : JSValue
  | num (n : Int) : JSValue
  | str (s : String) : JSValue
  | arr (elems : List JSValue) : JSValue
  | obj (fields : List (String × JSValue)) : JSValue
deriving Repr

/-- JavaScript truthiness of a value. -/
def truthy : JSValue → Bool
  | .undefined => false
  | .null => false
  | .bool b => b
  | .num n => n != 0
  | .str s => s != ""
  | .arr _ => true
  | .obj _ => true

/-- Array.isArray. -/
def isArray : JSValue → Bool
  | .arr _ => true
  | _ => false

/-- Whether typeof the value is the string object: plain objects, arrays and
null all qualify. -/
def isObjectType : JSValue → Bool
  | .obj _ => true
  | .arr _ => true
  | .null => true
  | _ => false

/-- Own-property lookup: the first binding of the key, if any. Only plain
objects carry modelled properties. -/
def getOwn : JSValue → String → Option JSValue
  | .obj fields, k => fields.lookup k
  | _, _ => none

/-- hasOwnProperty, and the in operator, for the modelled objects. -/
def hasOwn (o : JSValue) (k : String) : Bool := (getOwn o k).isSome

/-- Property read, yielding undefined when the key is absent. -/
def getProp (o : JSValue) (k : String) : JSValue := (getOwn o k).getD .undefined

/-- Assignment into a property list: overwrite the first binding of the key in
place, or append a new binding at the end. -/
def setFields (fields : List (String × JSValue)) (k : String) (v : JSValue) :
    List (String × JSValue) :=
  match fields with
  | [] => [(k, v)]
  | (k0, v0) :: rest =>
      if k0 = k then (k0, v) :: rest else (k0, v0) :: setFields rest k v

/-- Property assignment on a value; assignment on a non-object is a no-op in
the model (the sources only ever assign onto objects). -/
def setProp (o : JSValue) (k : String) (v : JSValue) : JSValue :=
  match o with
  | .obj fields => .obj (setFields fields k v)
  | _ => o

/-! ## AcmeUtils: base64url codec -/

/-- Character step of fromStandardB64: replace plus by minus. -/
def plusToMinus (c : Char) : Char := if c = '+' then '-' else c

/-- Character step of fromStandardB64: replace slash by underscore. -/
def slashToUnderscore (c : Char) : Char := if c = '/' then '_' else c

/-- Character step of toStandardB64: replace minus by plus. -/
def minusToPlus (c : Char) : Char := if c = '-' then '+' else c

/-- Character step of toStandardB64: replace underscore by slash. -/
def underscoreToSlash (c : Char) : Char := if c = '_' then '/' else c

/-- AcmeUtils.fromStandardB64 on character lists: replace plus by minus and
slash by underscore, then delete every padding character. -/
def fromStandardB64Chars (x : List Char) : List Char :=
  ((x.map plusToMinus).map slashToUnderscore).filter (fun c => c ≠ '=')

/-- AcmeUtils.fromStandardB64. -/
def fromStandardB64 (x : String) : String := ⟨fromStandardB64Chars x.data⟩

/-- The unpadded core computed by AcmeUtils.toStandardB64: replace minus by
plus and underscore by slash, then delete every padding character. -/
def toStandardB64Core (x : List Char) : List Char :=
  ((x.map minusToPlus).map underscoreToSlash).filter (fun c => c ≠ '=')

/-- The padding the switch of toStandardB64 appends for a core of length n:
two pad characters at residue 2, one at residue 3, none otherwise. -/
def b64PadFor (n : Nat) : List Char :=
  match n % 4 with
  | 2 => ['=', '=']
  | 3 => ['=']
  | _ => []

/-- AcmeUtils.toStandardB64 on character lists: the core, then padding
recomputed from the core length modulo 4. -/
def toStandardB64Chars (x : List Char) : List Char :=
  toStandardB64Core x ++ b64PadFor (toStandardB64Core x).length

/-- AcmeUtils.toStandardB64. -/
def toStandardB64 (x : String) : String := ⟨toStandardB64Chars x.data⟩

/-- Standard base64 alphabet, six-bit value to character; model of the
platform encoder behind Buffer.toString with the base64 encoding. -/
def b64EncChar (n : Nat) : Char :=
  if n < 26 then Char.ofNat (65 + n)
  else if n < 52 then Char.ofNat (97 + (n - 26))
  else if n < 62 then Char.ofNat (48 + (n - 52))
  else if n = 62 then '+'
  else '/'

/-- Model of the platform base64 encoder: bytes to padded standard base64,
three bytes to four characters, with one or two padding characters on a
trailing group. -/
def nodeB64EncodeChars : List Nat → List Char
  | [] => []
  | [a] => [b64EncChar (a / 4), b64EncChar (a % 4 * 16), '=', '=']
  | [a, b] => [b64EncChar (a / 4), b64EncChar (a % 4 * 16 + b / 16),
               b64EncChar (b % 16 * 4), '=']
  | a :: b :: c :: rest =>
      b64EncChar (a / 4) :: b64EncChar (a % 4 * 16 + b / 16) ::
      b64EncChar (b % 16 * 4 + c / 64) :: b64EncChar (c % 64) ::
      nodeB64EncodeChars rest

/-- AcmeUtils.b64enc: platform base64 of the bytes, translated to base64url
by fromStandardB64. -/
def b64enc (buffer : List Nat) : String :=
  ⟨fromStandardB64Chars (nodeB64EncodeChars buffer)⟩

/-- Six-bit value of a character; the platform decoder accepts both the
standard and the URL-safe alphabet. -/
def b64DecVal (c : Char) : Option Nat :=
  if 65 ≤ c.toNat ∧ c.toNat ≤ 90 then some (c.toNat - 65)
  else if 97 ≤ c.toNat ∧ c.toNat ≤ 122 then some (c.toNat - 97 + 26)
  else if 48 ≤ c.toNat ∧ c.toNat ≤ 57 then some (c.toNat - 48 + 52)
  else if c = '+' ∨ c = '-' then some 62
  else if c = '/' ∨ c = '_' then some 63
  else none

/-- Reassemble bytes from six-bit values: four values give three bytes; a
trailing group of three or two values gives two bytes or one; a single
trailing value gives none. -/
def b64Bytes : List Nat → List Nat
  | a :: b :: c :: d :: rest =>
      (a * 4 + b / 16) :: (b % 16 * 16 + c / 4) :: (c % 4 * 64 + d) ::
      b64Bytes rest
  | [a, b, c] => [a * 4 + b / 16, b % 16 * 16 + c / 4]
  | [a, b] => [a * 4 + b / 16]
  | _ => []

/-- AcmeUtils.b64dec, a model of new Buffer(str, base64): characters outside
the recognised alphabet, padding included, are ignored. -/
def b64dec (str : String) : List Nat := b64Bytes (str.data.filterMap b64DecVal)

/-! ## AcmeUtils: validators -/

/-- A base64url character: ASCII letter, digit, underscore or minus. -/
def isB64Char (c : Char) : Bool :=
  decide ((65 ≤ c.toNat ∧ c.toNat ≤ 90) ∨ (97 ≤ c.toNat ∧ c.toNat ≤ 122) ∨
    (48 ≤ c.toNat ∧ c.toNat ≤ 57) ∨ c = '_' ∨ c = '-')

/-- AcmeUtils.isB64String: a string value with no character outside the
base64url alphabet. -/
def isB64String (x : JSValue) : Bool :=
  match x with
  | .str s => s.data.all isB64Char
  | _ => false

/-- AcmeUtils.fieldsPresent: false unless the object argument is a truthy
value of object type; then every listed field must be an own property. -/
def fieldsPresent (fields : List String) (object : JSValue) : Bool :=
  if !truthy object || !isObjectType object then false
  else fields.all (fun k => hasOwn object k)

/-- AcmeUtils.validJWK: require a kty field and no private exponent d, then
check the type-specific public fields. -/
def validJWK (jwk : JSValue) : Bool :=
  if !fieldsPresent ["kty"] jwk || hasOwn jwk "d" then false
  else
    match getProp jwk "kty" with
    | .str "RSA" => isB64String (getProp jwk "n") && isB64String (getProp jwk "e")
    | .str "EC" =>
        (match getProp jwk "crv" with | .str _ => true | _ => false) &&
        isB64String (getProp jwk "x") && isB64String (getProp jwk "y")
    | _ => false

/-! ## Error taxonomy -/

/-- The three error kinds a workflow operation can fail with: TypeError
throws from input validation, protocol errors from missing endpoints or
nonces, and network errors from transport failures. -/
inductive AcmeError where
  | typeError (msg : String)
  | protocolError (msg : String)
  | networkError (msg : String)
deriving Repr, DecidableEq

/-! ## Link-header parsing -/

/-- Assignment into a relation map: overwrite the first binding of the key in
place, or append a new binding (JavaScript object assignment). -/
def setAssoc (m : List (String × String)) (k v : String) : List (String × String) :=
  match m with
  | [] => [(k, v)]
  | (k0, v0) :: rest =>
      if k0 = k then (k0, v) :: rest else (k0, v0) :: setAssoc rest k v

/-- String.prototype.split with a one-character separator: always returns one
part more than the number of separator occurrences. -/
def splitChar (sep : Char) : List Char → List (List Char)
  | [] => [[]]
  | c :: rest =>
      match splitChar sep rest with
      | [] => [[c]]
      | p :: ps => if c = sep then [] :: p :: ps else (c :: p) :: ps

/-- String.prototype.trim: drop whitespace from both ends. -/
def trimChars (l : List Char) : List Char :=
  ((l.dropWhile Char.isWhitespace).reverse.dropWhile Char.isWhitespace).reverse

/-- The replace step for the first part of a link segment: if the whole part
is an angle-bracketed token, keep the inside, else keep the part unchanged. -/
def stripAngles (p : List Char) : List Char :=
  match p with
  | '<' :: rest =>
      if rest.getLast? = some '>' ∧ rest.dropLast.all (fun c => c ≠ '>') then
        rest.dropLast
      else p
  | _ => p

/-- The attribute matcher of a link segment part: after trimming, a key of
one or more characters other than equals and space, optional spaces, an
equals sign, optional spaces, and a non-empty double-quoted value ending the
part. -/
def attrMatch (p : List Char) : Option (String × String) :=
  let t := trimChars p
  let key := t.takeWhile (fun c => c ≠ '=' ∧ c ≠ ' ')
  match key, (t.drop key.length).dropWhile (fun c => c = ' ') with
  | [], _ => none
  | _, '=' :: r2 =>
      match r2.dropWhile (fun c => c = ' ') with
      | '"' :: r4 =>
          let v := r4.takeWhile (fun c => c ≠ '"')
          if v ≠ [] ∧ r4.drop v.length = ['"'] then some (⟨key⟩, ⟨v⟩) else none
      | _ => none
  | _, _ => none

/-- The body of the link-header parser on a present header string: split on
commas; for each segment take the angle-bracketed first part as the url and
fold the quoted attributes; then keep only segments carrying a rel
attribute, mapping the rel value to the url, the last occurrence winning. -/
def parseLinkStr (link : String) : List (String × String) :=
  let infos := (splitChar ',' link.data).map (fun lnk =>
    let parts := splitChar ';' (trimChars lnk)
    let url : String := ⟨stripAngles (parts.headD [])⟩
    let attrs := (parts.drop 1).foldl (fun acc p =>
        match attrMatch p with
        | some kv => setAssoc acc kv.1 kv.2
        | none => acc) []
    setAssoc attrs "url" url)
  infos.foldl (fun acc info =>
    match info.lookup "rel" with
    | some rel =>
        match info.lookup "url" with
        | some url => setAssoc acc rel url
        | none => acc
    | none => acc) []

/-- The parser with its catch-all: an absent header makes the segment split
throw, the exception is caught and null is returned; a present header string
never throws and yields the parsed mapping. -/
def parseLink (link : Option String) : Option (List (String × String)) :=
  match link with
  | none => none
  | some s => some (parseLinkStr s)

/-! ## Response wrapper and link queries -/

/-- The value produced for each dispatched request: the body plus the parsed
link relations (null when the parser failed) and the location header. -/
structure ResponseWrapper where
  body : JSValue
  links : Option (List (String × String))
  location : Option String
deriving Repr

/-- Build the response wrapper exactly as the response handler does: links
from the link header through the parser, location passed through. -/
def responseWrapperOf (body : JSValue) (linkHeader : Option String)
    (locationHeader : Option String) : ResponseWrapper :=
  { body := body, links := parseLink linkHeader, location := locationHeader }

/-- Result of a link query: the whole relation map, or one relation value
(undefined when absent). -/
inductive LinkQuery where
  | all (links : List (String × String))
  | one (v : Option String)
deriving Repr, DecidableEq

/-- AcmeProtocol.getLink: throw a TypeError when the object or its links
slot is falsy; with no (or an empty) name return all relations, else the
named one. -/
def getLink (obj : Option ResponseWrapper) (name : Option String) :
    Except AcmeError LinkQuery :=
  match obj with
  | none => .error (.typeError "Invalid object, no links")
  | some w =>
      match w.links with
      | none => .error (.typeError "Invalid object, no links")
      | some links =>
          match name with
          | none => .ok (.all links)
          | some nm => if nm = "" then .ok (.all links) else .ok (.one (links.lookup nm))

/-! ## Nonce store -/

/-- The operations the client performs on the nonce pool: deposit of a
replay-nonce header value after a response, and take before a signed post. -/
inductive NonceOp where
  | deposit (tok : String)
  | take
deriving Repr, DecidableEq

/-- Observable outcome of one nonce-store operation. -/
inductive NEvent where
  | depOk (tok : String)
  | depIgnored
  | tookPool (tok : String)
  | tookProbe (tok : String)
  | tookFail
deriving Repr, DecidableEq

/-- Nonce-store state: the pool, and the environment of replay-nonce headers
successive HEAD probes will receive (none models an absent header). -/
structure NonceState where
  nonces : List String
  probes : List (Option String)
deriving Repr, DecidableEq

/-- The probe path of the take operation: issue a HEAD request, return its
replay-nonce header if truthy, else fail with no nonce available. -/
def nonceProbe (st : NonceState) : NonceState × NEvent :=
  match st.probes with
  | header :: rest =>
      match header with
      | some tok =>
          if tok ≠ "" then ({ st with probes := rest }, .tookProbe tok)
          else ({ st with probes := rest }, .tookFail)
      | none => ({ st with probes := rest }, .tookFail)
  | [] => (st, .tookFail)

/-- One nonce-store operation. A deposit pushes the header value only when
truthy. A take shifts the pool head; a truthy head is returned with no
network access, otherwise the HEAD probe runs. -/
def nonceStep (st : NonceState) : NonceOp → NonceState × NEvent
  | .deposit tok =>
      if tok ≠ "" then ({ st with nonces := st.nonces ++ [tok] }, .depOk tok)
      else (st, .depIgnored)
  | .take =>
      match st.nonces with
      | nonce :: rest =>
          if nonce ≠ "" then ({ st with nonces := rest }, .tookPool nonce)
          else nonceProbe { st with nonces := rest }
      | [] => nonceProbe st

/-- The event trace of a sequence of nonce-store operations. -/
def nonceTrace (st : NonceState) : List NonceOp → List NEvent
  | [] => []
  | op :: ops =>
      let s := nonceStep st op
      s.2 :: nonceTrace s.1 ops

/-- The state after a sequence of nonce-store operations. -/
def nonceRun (st : NonceState) : List NonceOp → NonceState
  | [] => st
  | op :: ops => nonceRun (nonceStep st op).1 ops

/-- The tokens returned by the takes of a trace, in order. -/
def takeTokens (tr : List NEvent) : List String :=
  tr.filterMap (fun e =>
    match e with
    | .tookPool t => some t
    | .tookProbe t => some t
    | _ => none)

/-- The tokens actually entering the pool from the deposits of an operation
sequence (falsy header values are never pushed). -/
def depositTokens (ops : List NonceOp) : List String :=
  ops.filterMap (fun op =>
    match op with
    | .deposit t => if t = "" then none else some t
    | .take => none)

/-- The truthy replay-nonce header values a probe environment can hand out. -/
def probeTokens (ps : List (Option String)) : List String :=
  ps.filterMap (fun h =>
    match h with
    | some t => if t = "" then none else some t
    | none => none)

/-- The nonce-uniqueness property exactly as claimed: a token returned by a
take recurs at a later take only if that exact token was deposited in
between. -/
def NonceUniqClaim (tr : List NEvent) : Prop :=
  ∀ (i j : Nat) (t : String), i < j →
    (tr[i]? = some (NEvent.tookPool t) ∨ tr[i]? = some (NEvent.tookProbe t)) →
    (tr[j]? = some (NEvent.tookPool t) ∨ tr[j]? = some (NEvent.tookProbe t)) →
    ∃ k : Nat, i < k ∧ k < j ∧ tr[k]? = some (NEvent.depOk t)

/-! ## Directory resolver -/

/-- Directory-resolver state: the stored pending-result reference (a promise
identified by its fetch index) and how many underlying fetches have been
started. -/
structure DirState where
  dirPromise : Option Nat
  fetchCount : Nat
deriving Repr, DecidableEq

/-- AcmeProtocol.directory: reuse the stored promise when present, else
start one fetch, store its promise and return it. The promise is identified
by its fetch index; its eventual body or rejection is read off an outcome
environment, which the resolver itself never inspects (the replay-nonce
deposit performed on a successful response is orthogonal to the memoization
and modelled with the nonce store). -/
def directoryCall (st : DirState) : Nat × DirState :=
  match st.dirPromise with
  | some p => (p, st)
  | none => (st.fetchCount, { dirPromise := some st.fetchCount, fetchCount := st.fetchCount + 1 })

/-- Results and final state of a number of successive directory calls. -/
def dirCalls : Nat → DirState → List Nat × DirState
  | 0, st => ([], st)
  | n + 1, st =>
      let c := directoryCall st
      let r := dirCalls n c.2
      (c.1 :: r.1, r.2)

/-! ## Workflow operations -/

/-- A dispatched signed POST: target URI, payload, and the binary response
flag. -/
structure PostCall where
  uri : JSValue
  payload : JSValue
  binary : Bool
deriving Repr

/-- JavaScript string coercion, as used by string concatenation (the claims
only exercise the string case). -/
def jsToString : JSValue → String
  | .undefined => "undefined"
  | .null => "null"
  | .bool b => if b then "true" else "false"
  | .num n => toString n
  | .str s => s
  | .arr _ => ""
  | .obj _ => "[object Object]"

/-- The synchronous validation of newRegistration, performed before the
directory is resolved: only Array.isArray is checked. -/
def newRegistrationSync (contacts : JSValue) : Option AcmeError :=
  if !isArray contacts then some (.typeError "contacts must be non-empty array of URIs")
  else none

/-- AcmeProtocol.newRegistration against a resolved directory: the
synchronous check, then the new-reg endpoint lookup, then the payload with
the contacts and the optional agreement, posted to the endpoint. -/
def newRegistration (contacts agreement : JSValue) (dir : JSValue) :
    Except AcmeError PostCall :=
  match newRegistrationSync contacts with
  | some e => .error e
  | none =>
      if !truthy (getProp dir "new-reg") then
        .error (.protocolError "No new-registration endpoint available")
      else
        let payload : JSValue := .obj [("resource", .str "new-reg"), ("contact", contacts)]
        let payload := if truthy agreement then setProp payload "agreement" agreement else payload
        .ok { uri := getProp dir "new-reg", payload := payload, binary := false }

/-- AcmeProtocol.updateRegistration: require a truthy location, tag the
caller-supplied registration object in place, post it to the location. The
returned object is the post-call value of the caller argument. -/
def updateRegistration (uri : JSValue) (registration : JSValue) :
    Except AcmeError (JSValue × PostCall) :=
  if !truthy uri then .error (.typeError "No registration URI provided")
  else
    let registration := setProp registration "resource" (.str "reg")
    .ok (registration, { uri := uri, payload := registration, binary := false })

/-- AcmeProtocol.respondToChallenge: require a truthy challenge uri, tag the
caller-supplied challenge in place, add the key authorization computed from
the token and the account-key thumbprint, post the challenge to its uri. The
returned object is the post-call value of the caller argument. -/
def respondToChallenge (thumbprint : String) (challenge : JSValue) :
    Except AcmeError (JSValue × PostCall) :=
  if !truthy (getProp challenge "uri") then .error (.typeError "Invalid challenge object")
  else
    let challenge := setProp challenge "resource" (.str "challenge")
    let challenge := setProp challenge "keyAuthorization"
        (.str (jsToString (getProp challenge "token") ++ "." ++ thumbprint))
    .ok (challenge, { uri := getProp challenge "uri", payload := challenge, binary := false })

/-! ## Helper lemmas on the object model -/

theorem lookup_setFields_self (fs : List (String × JSValue)) (k : String) (v : JSValue) :
    (setFields fs k v).lookup k = some v := by
  induction fs with
  | nil => simp [setFields, List.lookup]
  | cons p rest ih =>
      obtain ⟨k0, v0⟩ := p
      by_cases h : k0 = k
      · subst h
        simp [setFields, List.lookup]
      · have hb : (k == k0) = false := beq_eq_false_iff_ne.mpr (Ne.symm h)
        simp [setFields, h, List.lookup, hb, ih]

theorem lookup_setFields_ne (fs : List (String × JSValue)) (k k2 : String) (v : JSValue)
    (h : k2 ≠ k) : (setFields fs k v).lookup k2 = fs.lookup k2 := by
  induction fs with
  | nil =>
      have hb : (k2 == k) = false := beq_eq_false_iff_ne.mpr h
      simp [setFields, List.lookup, hb]
  | cons p rest ih =>
      obtain ⟨k0, v0⟩ := p
      by_cases h0 : k0 = k
      · subst h0
        have hb : (k2 == k0) = false := beq_eq_false_iff_ne.mpr h
        simp [setFields, List.lookup, hb]
      · cases hk2 : (k2 == k0) <;> simp [setFields, h0, List.lookup, hk2, ih]

theorem getProp_setProp_self (fs : List (String × JSValue)) (k : String) (v : JSValue) :
    getProp (setProp (.obj fs) k v) k = v := by
  simp [getProp, setProp, getOwn, lookup_setFields_self]

theorem getProp_setProp_ne (fs : List (String × JSValue)) (k k2 : String) (v : JSValue)
    (h : k2 ≠ k) : getProp (setProp (.obj fs) k v) k2 = getProp (.obj fs) k2 := by
  simp [getProp, setProp, getOwn, lookup_setFields_ne _ _ _ _ h]

theorem getProp_obj_of_lookup (fs : List (String × JSValue)) (k : String) (v : JSValue)
    (h : fs.lookup k = some v) : getProp (.obj fs) k = v := by
  simp [getProp, getOwn, h]

/-! ## C4: what newRegistration validates -/

/-- C4 (code evidence): newRegistration only checks Array.isArray, so the
empty contact list passes the synchronous validation and a POST with an
empty contact array is dispatched to the new-reg endpoint; a non-array value
does fail synchronously with the TypeError. -/
theorem newRegistration_accepts_empty_contacts :
    newRegistrationSync (.arr []) = none ∧
    newRegistration (.arr []) .undefined (.obj [("new-reg", .str "https://ca/new-reg")]) =
      .ok { uri := .str "https://ca/new-reg",
            payload := .obj [("resource", .str "new-reg"), ("contact", .arr [])],
            binary := false } ∧
    newRegistrationSync (.str "nope") =
      some (.typeError "contacts must be non-empty array of URIs") :=
  ⟨rfl, rfl, rfl⟩

/-! ## C6: validJWK -/

/-- C6: validJWK returns false for every value carrying a d field, whatever
the other fields; and it returns true for every object with kty RSA, valid
base64url n and e and no d, and for every object with kty EC, a string crv,
valid base64url x and y and no d. -/
theorem validJWK_spec :
    (∀ jwk : JSValue, hasOwn jwk "d" = true → validJWK jwk = false) ∧
    (∀ jwk : JSValue, hasOwn jwk "d" = false → getProp jwk "kty" = .str "RSA" →
      isB64String (getProp jwk "n") = true → isB64String (getProp jwk "e") = true →
      validJWK jwk = true) ∧
    (∀ (jwk : JSValue) (crv : String), hasOwn jwk "d" = false →
      getProp jwk "kty" = .str "EC" → getProp jwk "crv" = .str crv →
      isB64String (getProp jwk "x") = true → isB64String (getProp jwk "y") = true →
      validJWK jwk = true) := by
  refine ⟨?_, ?_, ?_⟩
  · intro jwk h
    simp [validJWK, h]
  · intro jwk hd hk hn he
    cases jwk with
    | obj fs =>
        have hlook : fs.lookup "kty" = some (.str "RSA") := by
          cases hl : fs.lookup "kty" with
          | none => rw [getProp, getOwn, hl] at hk; cases hk
          | some v => rw [getProp, getOwn, hl] at hk; simp at hk; rw [hk]
        have hfp : fieldsPresent ["kty"] (.obj fs) = true := by
          simp [fieldsPresent, truthy, isObjectType, hasOwn, getOwn, hlook]
        simp [validJWK, hfp, hd, hk, hn, he]
    | undefined => simp [getProp, getOwn] at hk
    | null => simp [getProp, getOwn] at hk
    | bool b => simp [getProp, getOwn] at hk
    | num n => simp [getProp, getOwn] at hk
    | str s => simp [getProp, getOwn] at hk
    | arr a => simp [getProp, getOwn] at hk
  · intro jwk crv hd hk hcrv hx hy
    cases jwk with
    | obj fs =>
        have hlook : fs.lookup "kty" = some (.str "EC") := by
          cases hl : fs.lookup "kty" with
          | none => rw [getProp, getOwn, hl] at hk; cases hk
          | some v => rw [getProp, getOwn, hl] at hk; simp at hk; rw [hk]
        have hfp : fieldsPresent ["kty"] (.obj fs) = true := by
          simp [fieldsPresent, truthy, isObjectType, hasOwn, getOwn, hlook]
        simp [validJWK, hfp, hd, hk, hcrv, hx, hy]
    | undefined => simp [getProp, getOwn] at hk
    | null => simp [getProp, getOwn] at hk
    | bool b => simp [getProp, getOwn] at hk
    | num n => simp [getProp, getOwn] at hk
    | str s => simp [getProp, getOwn] at hk
    | arr a => simp [getProp, getOwn] at hk

/-- C6 witness: the theorem applied to a key with a private exponent, a
well-formed RSA public key and a well-formed EC public key. -/
theorem validJWK_spec_witness :
    validJWK (.obj [("kty", .str "RSA"), ("n", .str "abc"), ("e", .str "AQAB"),
      ("d", .str "priv")]) = false ∧
    validJWK (.obj [("kty", .str "RSA"), ("n", .str "abc"), ("e", .str "AQAB")]) = true ∧
    validJWK (.obj [("kty", .str "EC"), ("crv", .str "P-256"), ("x", .str "ab"),
      ("y", .str "cd")]) = true :=
  ⟨validJWK_spec.1 _ rfl,
   validJWK_spec.2.1 _ rfl rfl rfl rfl,
   validJWK_spec.2.2 _ "P-256" rfl rfl rfl rfl rfl⟩

/-! ## C8: toStandardB64 padding law and idempotence -/

theorem toStandardB64Core_append (l r : List Char) :
    toStandardB64Core (l ++ r) = toStandardB64Core l ++ toStandardB64Core r := by
  simp [toStandardB64Core, List.filter_append]

theorem toStandardB64Core_pad (n : Nat) : toStandardB64Core (b64PadFor n) = [] := by
  unfold b64PadFor
  split <;> rfl

theorem stdChar_idem (c : Char) :
    underscoreToSlash (minusToPlus (underscoreToSlash (minusToPlus c))) =
    underscoreToSlash (minusToPlus c) := by
  by_cases h1 : c = '-'
  · subst h1; rfl
  · by_cases h2 : c = '_'
    · subst h2; rfl
    · simp [minusToPlus, underscoreToSlash, h1, h2]

theorem core_fix (x : List Char) :
    ∀ a ∈ toStandardB64Core x, underscoreToSlash (minusToPlus a) = a := by
  intro a ha
  simp only [toStandardB64Core, List.mem_filter, List.mem_map] at ha
  obtain ⟨⟨b, ⟨c, hcx, hceq⟩, hbeq⟩, hne⟩ := ha
  subst hbeq
  subst hceq
  exact stdChar_idem c

theorem core_core (x : List Char) :
    toStandardB64Core (toStandardB64Core x) = toStandardB64Core x := by
  show (((toStandardB64Core x).map minusToPlus).map underscoreToSlash).filter
      (fun c => c ≠ '=') = toStandardB64Core x
  rw [List.map_map]
  have hmap : (toStandardB64Core x).map (underscoreToSlash ∘ minusToPlus) =
      toStandardB64Core x := by
    have h2 : (toStandardB64Core x).map (underscoreToSlash ∘ minusToPlus) =
        (toStandardB64Core x).map id := by
      apply List.map_congr_left
      intro a ha
      simpa using core_fix x a ha
    rw [h2, List.map_id]
  rw [hmap]
  apply List.filter_eq_self.mpr
  intro a ha
  simp only [toStandardB64Core, List.mem_filter] at ha
  simpa using ha.2

theorem toStandardB64Chars_idem (x : List Char) :
    toStandardB64Chars (toStandardB64Chars x) = toStandardB64Chars x := by
  have hc : toStandardB64Core (toStandardB64Chars x) = toStandardB64Core x := by
    rw [toStandardB64Chars, toStandardB64Core_append, toStandardB64Core_pad,
      List.append_nil, core_core]
  rw [toStandardB64Chars]
  rw [hc]
  rfl

/-- C8: with the core of a base64url string being the input after the
character translation and the removal of every pad, residue 2 of the core
length appends two pads, residue 3 one, residues 0 and 1 none; and the
conversion is idempotent, on already-padded input included. -/
theorem toStandardB64_padding_law (s : String) :
    ((toStandardB64Core s.data).length % 4 = 2 →
       toStandardB64 s = ⟨toStandardB64Core s.data ++ ['=', '=']⟩) ∧
    ((toStandardB64Core s.data).length % 4 = 3 →
       toStandardB64 s = ⟨toStandardB64Core s.data ++ ['=']⟩) ∧
    ((toStandardB64Core s.data).length % 4 = 0 →
       toStandardB64 s = ⟨toStandardB64Core s.data⟩) ∧
    ((toStandardB64Core s.data).length % 4 = 1 →
       toStandardB64 s = ⟨toStandardB64Core s.data⟩) ∧
    toStandardB64 (toStandardB64 s) = toStandardB64 s := by
  refine ⟨?_, ?_, ?_, ?_, ?_⟩
  · intro h
    simp [toStandardB64, toStandardB64Chars, b64PadFor, h]
  · intro h
    simp [toStandardB64, toStandardB64Chars, b64PadFor, h]
  · intro h
    simp [toStandardB64, toStandardB64Chars, b64PadFor, h]
  · intro h
    simp [toStandardB64, toStandardB64Chars, b64PadFor, h]
  · show toStandardB64 (toStandardB64 s) = toStandardB64 s
    unfold toStandardB64
    exact congrArg String.mk (toStandardB64Chars_idem s.data)

/-- C8 witness: the padding law applied to concrete strings of each residue
class, and idempotence on one of them. -/
theorem toStandardB64_padding_law_witness :
    ((toStandardB64Core ("TQ" : String).data).length % 4 = 2 ∧
      toStandardB64 "TQ" = ⟨toStandardB64Core ("TQ" : String).data ++ ['=', '=']⟩) ∧
    ((toStandardB64Core ("abc" : String).data).length % 4 = 3 ∧
      toStandardB64 "abc" = ⟨toStandardB64Core ("abc" : String).data ++ ['=']⟩) ∧
    ((toStandardB64Core ("abcd" : String).data).length % 4 = 0 ∧
      toStandardB64 "abcd" = ⟨toStandardB64Core ("abcd" : String).data⟩) ∧
    ((toStandardB64Core ("a" : String).data).length % 4 = 1 ∧
      toStandardB64 "a" = ⟨toStandardB64Core ("a" : String).data⟩) ∧
    toStandardB64 (toStandardB64 "TQ==") = toStandardB64 "TQ==" :=
  ⟨⟨by decide, (toStandardB64_padding_law "TQ").1 (by decide)⟩,
   ⟨by decide, (toStandardB64_padding_law "abc").2.1 (by decide)⟩,
   ⟨by decide, (toStandardB64_padding_law "abcd").2.2.1 (by decide)⟩,
   ⟨by decide, (toStandardB64_padding_law "a").2.2.2.1 (by decide)⟩,
   (toStandardB64_padding_law "TQ==").2.2.2.2⟩

/-! ## C5 and C10: challenge response and in-place mutation -/

theorem truthy_str_of_ne (u : String) (h : u ≠ "") : truthy (.str u) = true := by
  simp [truthy]
  exact h

theorem respondToChallenge_ok (thumbprint : String) (fs : List (String × JSValue))
    (u t : String) (hu : u ≠ "") (huri : getProp (.obj fs) "uri" = .str u)
    (htok : getProp (.obj fs) "token" = .str t) :
    respondToChallenge thumbprint (.obj fs) =
      .ok (setProp (setProp (.obj fs) "resource" (.str "challenge")) "keyAuthorization"
             (.str (t ++ "." ++ thumbprint)),
           { uri := .str u,
             payload := setProp (setProp (.obj fs) "resource" (.str "challenge"))
               "keyAuthorization" (.str (t ++ "." ++ thumbprint)),
             binary := false }) := by
  have htruthy : truthy (getProp (.obj fs) "uri") = true := by
    rw [huri]
    exact truthy_str_of_ne u hu
  have htok2 : getProp (setProp (.obj fs) "resource" (.str "challenge")) "token" = .str t := by
    rw [getProp_setProp_ne _ _ _ _ (by decide)]
    exact htok
  have huri2 : getProp (setProp (setProp (.obj fs) "resource" (.str "challenge"))
      "keyAuthorization" (.str (t ++ "." ++ thumbprint))) "uri" = .str u := by
    show getProp (setProp (.obj (setFields fs "resource" (.str "challenge")))
      "keyAuthorization" (.str (t ++ "." ++ thumbprint))) "uri" = .str u
    rw [getProp_setProp_ne _ _ _ _ (by decide)]
    show getProp (setProp (.obj fs) "resource" (.str "challenge")) "uri" = .str u
    rw [getProp_setProp_ne _ _ _ _ (by decide)]
    exact huri
  simp only [respondToChallenge, htruthy, Bool.not_true, Bool.false_eq_true, if_false,
    htok2, jsToString, huri2]

/-- C5: for a challenge object with a non-empty uri and a token, the posted
payload is the challenge itself carrying keyAuthorization equal to the token,
a dot, and the account-key thumbprint, and tagged as a challenge resource;
the post goes to the challenge uri. A challenge with a falsy uri fails with
the TypeError before any post is dispatched. -/
theorem respondToChallenge_spec (thumbprint : String) :
    (∀ (fs : List (String × JSValue)) (u t : String), u ≠ "" →
      getProp (.obj fs) "uri" = .str u → getProp (.obj fs) "token" = .str t →
      ∃ c2 : JSValue,
        respondToChallenge thumbprint (.obj fs) =
          .ok (c2, { uri := .str u, payload := c2, binary := false }) ∧
        getProp c2 "keyAuthorization" = .str (t ++ "." ++ thumbprint) ∧
        getProp c2 "resource" = .str "challenge") ∧
    (∀ challenge : JSValue, truthy (getProp challenge "uri") = false →
      respondToChallenge thumbprint challenge =
        .error (.typeError "Invalid challenge object")) := by
  constructor
  · intro fs u t hu huri htok
    refine ⟨setProp (setProp (.obj fs) "resource" (.str "challenge")) "keyAuthorization"
      (.str (t ++ "." ++ thumbprint)), respondToChallenge_ok thumbprint fs u t hu huri htok,
      ?_, ?_⟩
    · show getProp (setProp (.obj (setFields fs "resource" (.str "challenge")))
        "keyAuthorization" (.str (t ++ "." ++ thumbprint))) "keyAuthorization" =
        .str (t ++ "." ++ thumbprint)
      exact getProp_setProp_self _ _ _
    · show getProp (setProp (.obj (setFields fs "resource" (.str "challenge")))
        "keyAuthorization" (.str (t ++ "." ++ thumbprint))) "resource" = .str "challenge"
      rw [getProp_setProp_ne _ _ _ _ (by decide)]
      exact getProp_setProp_self fs "resource" (.str "challenge")
  · intro challenge h
    simp [respondToChallenge, h]

/-- C5 witness: the end-to-end scenario of the specification, token T and
thumbprint K give keyAuthorization T.K, posted to the challenge uri. -/
theorem respondToChallenge_spec_witness :
    (∃ c2 : JSValue,
      respondToChallenge "K" (.obj [("uri", .str "U2"), ("token", .str "T"),
          ("type", .str "http-01")]) =
        .ok (c2, { uri := .str "U2", payload := c2, binary := false }) ∧
      getProp c2 "keyAuthorization" = .str ("T" ++ "." ++ "K") ∧
      getProp c2 "resource" = .str "challenge") ∧
    respondToChallenge "K" (.obj [("token", .str "T")]) =
      .error (.typeError "Invalid challenge object") :=
  ⟨(respondToChallenge_spec "K").1 [("uri", .str "U2"), ("token", .str "T"),
      ("type", .str "http-01")] "U2" "T" (by decide) rfl rfl,
   (respondToChallenge_spec "K").2 _ rfl⟩

/-- C10: updateRegistration and respondToChallenge mutate the caller object:
the posted payload is the post-call value of the caller argument itself,
that value carries the added resource tag (and for a challenge the computed
keyAuthorization), and when the tag was not already present the object really
changed. -/
theorem mutation_in_place (thumbprint : String) :
    (∀ (uri : JSValue) (fs : List (String × JSValue)), truthy uri = true →
      ∃ r2 : JSValue,
        updateRegistration uri (.obj fs) =
          .ok (r2, { uri := uri, payload := r2, binary := false }) ∧
        getProp r2 "resource" = .str "reg" ∧
        (getProp (.obj fs) "resource" ≠ .str "reg" → r2 ≠ .obj fs)) ∧
    (∀ (fs : List (String × JSValue)) (u t : String), u ≠ "" →
      getProp (.obj fs) "uri" = .str u → getProp (.obj fs) "token" = .str t →
      ∃ c2 : JSValue,
        respondToChallenge thumbprint (.obj fs) =
          .ok (c2, { uri := .str u, payload := c2, binary := false }) ∧
        getProp c2 "resource" = .str "challenge" ∧
        getProp c2 "keyAuthorization" = .str (t ++ "." ++ thumbprint) ∧
        (getProp (.obj fs) "keyAuthorization" ≠ .str (t ++ "." ++ thumbprint) →
          c2 ≠ .obj fs)) := by
  constructor
  · intro uri fs htruthy
    refine ⟨setProp (.obj fs) "resource" (.str "reg"), ?_, ?_, ?_⟩
    · simp [updateRegistration, htruthy]
    · exact getProp_setProp_self fs "resource" (.str "reg")
    · intro hne heq
      apply hne
      rw [← heq]
      exact getProp_setProp_self fs "resource" (.str "reg")
  · intro fs u t hu huri htok
    refine ⟨setProp (setProp (.obj fs) "resource" (.str "challenge")) "keyAuthorization"
      (.str (t ++ "." ++ thumbprint)),
      respondToChallenge_ok thumbprint fs u t hu huri htok, ?_, ?_, ?_⟩
    · show getProp (setProp (.obj (setFields fs "resource" (.str "challenge")))
        "keyAuthorization" (.str (t ++ "." ++ thumbprint))) "resource" = .str "challenge"
      rw [getProp_setProp_ne _ _ _ _ (by decide)]
      exact getProp_setProp_self fs "resource" (.str "challenge")
    · show getProp (setProp (.obj (setFields fs "resource" (.str "challenge")))
        "keyAuthorization" (.str (t ++ "." ++ thumbprint))) "keyAuthorization" =
        .str (t ++ "." ++ thumbprint)
      exact getProp_setProp_self _ _ _
    · intro hne heq
      apply hne
      rw [← heq]
      show getProp (setProp (.obj (setFields fs "resource" (.str "challenge")))
        "keyAuthorization" (.str (t ++ "." ++ thumbprint))) "keyAuthorization" =
        .str (t ++ "." ++ thumbprint)
      exact getProp_setProp_self _ _ _

/-- C10 witness: a concrete registration gains the reg tag in place and the
tagged object itself is posted; a concrete challenge gains the resource tag
and the key authorization in place. -/
theorem mutation_in_place_witness :
    (∃ r2 : JSValue,
      updateRegistration (.str "https://ca/reg/1") (.obj [("contact", .arr [])]) =
        .ok (r2, { uri := .str "https://ca/reg/1", payload := r2, binary := false }) ∧
      getProp r2 "resource" = .str "reg" ∧
      (getProp (.obj [("contact", .arr [])]) "resource" ≠ .str "reg" →
        r2 ≠ .obj [("contact", .arr [])])) ∧
    (∃ c2 : JSValue,
      respondToChallenge "K" (.obj [("uri", .str "U"), ("token", .str "tok")]) =
        .ok (c2, { uri := .str "U", payload := c2, binary := false }) ∧
      getProp c2 "resource" = .str "challenge" ∧
      getProp c2 "keyAuthorization" = .str ("tok" ++ "." ++ "K") ∧
      (getProp (.obj [("uri", .str "U"), ("token", .str "tok")]) "keyAuthorization" ≠
          .str ("tok" ++ "." ++ "K") →
        c2 ≠ .obj [("uri", .str "U"), ("token", .str "tok")])) :=
  ⟨(mutation_in_place "K").1 (.str "https://ca/reg/1") [("contact", .arr [])] rfl,
   (mutation_in_place "K").2 [("uri", .str "U"), ("token", .str "tok")] "U" "tok"
     (by decide) rfl rfl⟩

/-! ## C2 and C3: directory memoization and failure caching -/

theorem directoryCall_cached (st : DirState) (p : Nat) (h : st.dirPromise = some p) :
    directoryCall st = (p, st) := by
  simp [directoryCall, h]

theorem dirCalls_cached (n : Nat) (st : DirState) (p : Nat) (h : st.dirPromise = some p) :
    dirCalls n st = (List.replicate n p, st) := by
  induction n with
  | zero => simp [dirCalls]
  | succ k ih => simp [dirCalls, directoryCall_cached st p h, ih, List.replicate_succ]

/-- C2: from a fresh client, any number of directory calls trigger exactly
one underlying fetch, started by the first invocation; every call, the ones
issued while the fetch is pending included, returns the one stored promise,
so every caller observes the same result as the first. -/
theorem directory_single_fetch (st : DirState) (h : st.dirPromise = none) (n : Nat) :
    (dirCalls (n + 1) st).2.fetchCount = st.fetchCount + 1 ∧
    (dirCalls (n + 1) st).1 = List.replicate (n + 1) st.fetchCount ∧
    ∀ outcome : Nat → Except String JSValue,
      ∀ p ∈ (dirCalls (n + 1) st).1, outcome p = outcome st.fetchCount := by
  have hfirst : directoryCall st =
      (st.fetchCount,
       { dirPromise := some st.fetchCount, fetchCount := st.fetchCount + 1 }) := by
    simp [directoryCall, h]
  have hrest := dirCalls_cached n
    { dirPromise := some st.fetchCount, fetchCount := st.fetchCount + 1 } st.fetchCount rfl
  refine ⟨?_, ?_, ?_⟩
  · simp [dirCalls, hfirst, hrest]
  · simp [dirCalls, hfirst, hrest, List.replicate_succ]
  · intro outcome p hp
    have h2 : (dirCalls (n + 1) st).1 = List.replicate (n + 1) st.fetchCount := by
      simp [dirCalls, hfirst, hrest, List.replicate_succ]
    rw [h2] at hp
    rw [List.eq_of_mem_replicate hp]

/-- C2 witness: three calls on a fresh client. -/
theorem directory_single_fetch_witness :
    (dirCalls (2 + 1) (⟨none, 0⟩ : DirState)).2.fetchCount =
      (⟨none, 0⟩ : DirState).fetchCount + 1 ∧
    (dirCalls (2 + 1) (⟨none, 0⟩ : DirState)).1 =
      List.replicate (2 + 1) (⟨none, 0⟩ : DirState).fetchCount ∧
    ∀ outcome : Nat → Except String JSValue,
      ∀ p ∈ (dirCalls (2 + 1) (⟨none, 0⟩ : DirState)).1,
        outcome p = outcome (⟨none, 0⟩ : DirState).fetchCount :=
  directory_single_fetch ⟨none, 0⟩ rfl 2

/-- A transport failure: every promise of this environment rejects. -/
def failedDirOutcome : Nat → Except String JSValue := fun _ => .error "connection refused"

/-- C3 counterexample: on a fresh client whose only fetch rejects, the second
directory call does not trigger a new fetch; it hands back the stored
rejected promise unchanged. -/
theorem directory_failure_retry_counterexample :
    failedDirOutcome (directoryCall ⟨none, 0⟩).1 = .error "connection refused" ∧
    directoryCall (directoryCall ⟨none, 0⟩).2 =
      ((directoryCall ⟨none, 0⟩).1, (directoryCall ⟨none, 0⟩).2) ∧
    ¬ ((directoryCall (directoryCall ⟨none, 0⟩).2).2.fetchCount =
        (directoryCall ⟨none, 0⟩).2.fetchCount + 1) := by
  refine ⟨rfl, rfl, ?_⟩
  decide

/-- C3 amended: the rejection is surfaced to the first caller and to every
subsequent caller, because the failed promise stays cached: a later call
returns the same promise and starts no new fetch. -/
theorem directory_failure_cached (st : DirState) (outcome : Nat → Except String JSValue)
    (e : String) (h : st.dirPromise = none) (hfail : outcome st.fetchCount = .error e) :
    outcome (directoryCall st).1 = .error e ∧
    directoryCall (directoryCall st).2 = ((directoryCall st).1, (directoryCall st).2) ∧
    outcome (directoryCall (directoryCall st).2).1 = .error e ∧
    (directoryCall (directoryCall st).2).2.fetchCount = (directoryCall st).2.fetchCount := by
  refine ⟨?_, ?_, ?_, ?_⟩ <;> simp [directoryCall, h, hfail]

/-- C3 amended witness: the concrete failing environment. -/
theorem directory_failure_cached_witness :
    failedDirOutcome (directoryCall (⟨none, 0⟩ : DirState)).1 = .error "connection refused" ∧
    directoryCall (directoryCall (⟨none, 0⟩ : DirState)).2 =
      ((directoryCall (⟨none, 0⟩ : DirState)).1, (directoryCall (⟨none, 0⟩ : DirState)).2) ∧
    failedDirOutcome (directoryCall (directoryCall (⟨none, 0⟩ : DirState)).2).1 =
      .error "connection refused" ∧
    (directoryCall (directoryCall (⟨none, 0⟩ : DirState)).2).2.fetchCount =
      (directoryCall (⟨none, 0⟩ : DirState)).2.fetchCount :=
  directory_failure_cached ⟨none, 0⟩ failedDirOutcome "connection refused" rfl rfl

/-! ## C9: tolerance of absent and malformed link headers -/

/-- C9 counterexample: for an absent link header the parser yields null, not
an empty mapping, and querying the resulting wrapper for links throws the
TypeError instead of succeeding. -/
theorem absent_link_header_counterexample :
    parseLink none = none ∧
    (responseWrapperOf (.obj []) none none).links = none ∧
    getLink (some (responseWrapperOf (.obj []) none none)) none =
      .error (.typeError "Invalid object, no links") ∧
    ¬ (getLink (some (responseWrapperOf (.obj []) none none)) none = .ok (.all [])) := by
  refine ⟨rfl, rfl, rfl, ?_⟩
  intro hcontra
  exact Except.noConfusion hcontra

/-- C9 amended: a present header string never fails the parse: the wrapper
query succeeds with the parsed mapping, and a fully malformed header yields
the empty mapping; only an absent header leaves a null links slot, and a
links query on such a wrapper throws the TypeError, the response itself
still being delivered. -/
theorem link_parsing_tolerance (s : String) (body : JSValue) (loc : Option String) :
    parseLink (some s) = some (parseLinkStr s) ∧
    getLink (some (responseWrapperOf body (some s) loc)) none = .ok (.all (parseLinkStr s)) ∧
    parseLinkStr "this is not a link header" = [] ∧
    (∀ w : ResponseWrapper, w.links = none → ∀ nm : Option String,
      getLink (some w) nm = .error (.typeError "Invalid object, no links")) := by
  refine ⟨rfl, rfl, rfl, ?_⟩
  intro w hw nm
  simp [getLink, hw]

/-- C9 amended witness: a malformed header string tolerated, an absent one
throwing on query. -/
theorem link_parsing_tolerance_witness :
    getLink (some (responseWrapperOf (.obj []) (some "junk") none)) none =
      .ok (.all (parseLinkStr "junk")) ∧
    getLink (some (⟨.obj [], none, none⟩ : ResponseWrapper)) none =
      .error (.typeError "Invalid object, no links") :=
  ⟨(link_parsing_tolerance "junk" (.obj []) none).2.1,
   (link_parsing_tolerance "junk" (.obj []) none).2.2.2 ⟨.obj [], none, none⟩ rfl none⟩

/-! ## C7: base64url round-trip -/

theorem fromStandardB64Chars_append (l r : List Char) :
    fromStandardB64Chars (l ++ r) = fromStandardB64Chars l ++ fromStandardB64Chars r := by
  simp [fromStandardB64Chars, List.filter_append]

/-- Every six-bit value survives encoding, URL translation and decoding. -/
theorem b64_char_roundtrip : ∀ v : Nat, v < 64 →
    slashToUnderscore (plusToMinus (b64EncChar v)) ≠ '=' ∧
    b64DecVal (slashToUnderscore (plusToMinus (b64EncChar v))) = some v := by
  decide

/-- Induction principle following the three-byte chunking of the encoder. -/
theorem threeStepInduction {P : List Nat → Prop} (nil : P []) (one : ∀ a, P [a])
    (two : ∀ a b, P [a, b]) (cons : ∀ a b c l, P l → P (a :: b :: c :: l)) :
    ∀ l, P l
  | [] => nil
  | [a] => one a
  | [a, b] => two a b
  | a :: b :: c :: l => cons a b c l (threeStepInduction nil one two cons l)

theorem roundtrip_aux : ∀ bs : List Nat, (∀ b ∈ bs, b < 256) →
    b64Bytes (List.filterMap b64DecVal (fromStandardB64Chars (nodeB64EncodeChars bs))) = bs := by
  intro bs
  induction bs using threeStepInduction with
  | nil => intro _; rfl
  | one a =>
      intro h
      have ha : a < 256 := h a (by simp)
      have hpad : slashToUnderscore (plusToMinus '=') = '=' := rfl
      obtain ⟨hne1, hv1⟩ := b64_char_roundtrip (a / 4) (by omega)
      obtain ⟨hne2, hv2⟩ := b64_char_roundtrip (a % 4 * 16) (by omega)
      simp [nodeB64EncodeChars, fromStandardB64Chars, List.filter_cons, hpad, hne1, hne2,
        List.filterMap_cons, hv1, hv2, b64Bytes]
      omega
  | two a b =>
      intro h
      have ha : a < 256 := h a (by simp)
      have hb : b < 256 := h b (by simp)
      have hpad : slashToUnderscore (plusToMinus '=') = '=' := rfl
      obtain ⟨hne1, hv1⟩ := b64_char_roundtrip (a / 4) (by omega)
      obtain ⟨hne2, hv2⟩ := b64_char_roundtrip (a % 4 * 16 + b / 16) (by omega)
      obtain ⟨hne3, hv3⟩ := b64_char_roundtrip (b % 16 * 4) (by omega)
      simp [nodeB64EncodeChars, fromStandardB64Chars, List.filter_cons, hpad, hne1, hne2,
        hne3, List.filterMap_cons, hv1, hv2, hv3, b64Bytes]
      omega
  | cons a b c l ih =>
      intro h
      have ha : a < 256 := h a (by simp)
      have hb : b < 256 := h b (by simp)
      have hc : c < 256 := h c (by simp)
      have hl : ∀ x ∈ l, x < 256 := fun x hx => h x (by simp [hx])
      obtain ⟨hne1, hv1⟩ := b64_char_roundtrip (a / 4) (by omega)
      obtain ⟨hne2, hv2⟩ := b64_char_roundtrip (a % 4 * 16 + b / 16) (by omega)
      obtain ⟨hne3, hv3⟩ := b64_char_roundtrip (b % 16 * 4 + c / 64) (by omega)
      obtain ⟨hne4, hv4⟩ := b64_char_roundtrip (c % 64) (by omega)
      have henc : nodeB64EncodeChars (a :: b :: c :: l) =
          b64EncChar (a / 4) :: b64EncChar (a % 4 * 16 + b / 16) ::
          b64EncChar (b % 16 * 4 + c / 64) :: b64EncChar (c % 64) ::
          nodeB64EncodeChars l := rfl
      rw [henc]
      have hsplit : fromStandardB64Chars (b64EncChar (a / 4) :: b64EncChar (a % 4 * 16 + b / 16) ::
          b64EncChar (b % 16 * 4 + c / 64) :: b64EncChar (c % 64) :: nodeB64EncodeChars l) =
          slashToUnderscore (plusToMinus (b64EncChar (a / 4))) ::
          slashToUnderscore (plusToMinus (b64EncChar (a % 4 * 16 + b / 16))) ::
          slashToUnderscore (plusToMinus (b64EncChar (b % 16 * 4 + c / 64))) ::
          slashToUnderscore (plusToMinus (b64EncChar (c % 64))) ::
          fromStandardB64Chars (nodeB64EncodeChars l) := by
        simp [fromStandardB64Chars, List.filter_cons, hne1, hne2, hne3, hne4]
      rw [hsplit]
      simp only [List.filterMap_cons, hv1, hv2, hv3, hv4, b64Bytes]
      refine List.cons_eq_cons.mpr ⟨by omega, List.cons_eq_cons.mpr ⟨by omega,
        List.cons_eq_cons.mpr ⟨by omega, ih hl⟩⟩⟩

/-- C7: decoding the base64url encoding of any byte sequence gives back
exactly that sequence. -/
theorem b64_roundtrip (bs : List Nat) (h : ∀ b ∈ bs, b < 256) : b64dec (b64enc bs) = bs :=
  roundtrip_aux bs h

/-- C7 witness: the round-trip on a concrete byte sequence covering all the
padding shapes. -/
theorem b64_roundtrip_witness :
    b64dec (b64enc [0, 77, 255, 1, 2]) = [0, 77, 255, 1, 2] ∧
    b64dec (b64enc [251]) = [251] ∧ b64dec (b64enc [10, 20]) = [10, 20] :=
  ⟨b64_roundtrip [0, 77, 255, 1, 2] (by decide), b64_roundtrip [251] (by decide),
   b64_roundtrip [10, 20] (by decide)⟩

/-! ## C1: the nonce pool -/

theorem nonceProbe_nonces (st : NonceState) : (nonceProbe st).1.nonces = st.nonces := by
  obtain ⟨ns, ps⟩ := st
  cases ps with
  | nil => rfl
  | cons hdr rest =>
      cases hdr with
      | none => rfl
      | some tok => by_cases h : tok = "" <;> simp [nonceProbe, h]

theorem nonceRun_pool_nonempty : ∀ (ops : List NonceOp) (st : NonceState),
    (∀ t ∈ st.nonces, t ≠ "") → ∀ t ∈ (nonceRun st ops).nonces, t ≠ "" := by
  intro ops
  induction ops with
  | nil =>
      intro st h
      simpa [nonceRun] using h
  | cons op rest ih =>
      intro st h
      obtain ⟨ns, ps⟩ := st
      cases op with
      | deposit tok =>
          by_cases htok : tok = ""
          · have hstep : nonceStep ⟨ns, ps⟩ (.deposit tok) = (⟨ns, ps⟩, .depIgnored) := by
              simp [nonceStep, htok]
            rw [nonceRun, hstep]
            exact ih ⟨ns, ps⟩ h
          · have hstep : nonceStep ⟨ns, ps⟩ (.deposit tok) =
                (⟨ns ++ [tok], ps⟩, .depOk tok) := by
              simp [nonceStep, htok]
            rw [nonceRun, hstep]
            apply ih
            intro t ht
            rcases List.mem_append.mp ht with h1 | h1
            · exact h t h1
            · simp at h1
              subst h1
              exact htok
      | take =>
          cases ns with
          | nil =>
              have hstep : nonceStep ⟨[], ps⟩ .take = nonceProbe ⟨[], ps⟩ := rfl
              rw [nonceRun, hstep]
              apply ih
              intro t ht
              rw [nonceProbe_nonces] at ht
              simp at ht
          | cons n p2 =>
              by_cases hn : n = ""
              · have hstep : nonceStep ⟨n :: p2, ps⟩ .take = nonceProbe ⟨p2, ps⟩ := by
                  simp [nonceStep, hn]
                rw [nonceRun, hstep]
                apply ih
                intro t ht
                rw [nonceProbe_nonces] at ht
                exact h t (List.mem_cons_of_mem n ht)
              · have hstep : nonceStep ⟨n :: p2, ps⟩ .take = (⟨p2, ps⟩, .tookPool n) := by
                  simp [nonceStep, hn]
                rw [nonceRun, hstep]
                apply ih
                intro t ht
                exact h t (List.mem_cons_of_mem n ht)

theorem nonce_probe_aux (rest : List NonceOp)
    (ih : ∀ st : NonceState,
      (st.nonces ++ (depositTokens rest ++ probeTokens st.probes)).Nodup →
      (takeTokens (nonceTrace st rest)).Nodup ∧
      ∀ t ∈ takeTokens (nonceTrace st rest),
        t ∈ st.nonces ++ (depositTokens rest ++ probeTokens st.probes))
    (pool0 : List String) (ps : List (Option String))
    (h : (pool0 ++ (depositTokens rest ++ probeTokens ps)).Nodup) :
    (takeTokens ((nonceProbe ⟨pool0, ps⟩).2 ::
      nonceTrace (nonceProbe ⟨pool0, ps⟩).1 rest)).Nodup ∧
    ∀ t ∈ takeTokens ((nonceProbe ⟨pool0, ps⟩).2 ::
        nonceTrace (nonceProbe ⟨pool0, ps⟩).1 rest),
      t ∈ pool0 ++ (depositTokens rest ++ probeTokens ps) := by
  cases ps with
  | nil =>
      have hp : nonceProbe ⟨pool0, ([] : List (Option String))⟩ =
          (⟨pool0, []⟩, .tookFail) := rfl
      rw [hp]
      obtain ⟨h1, h2⟩ := ih ⟨pool0, []⟩ h
      refine ⟨by simpa [takeTokens] using h1, ?_⟩
      intro t ht
      simp only [takeTokens, List.filterMap_cons] at ht
      exact h2 t ht
  | cons hdr ps2 =>
      cases hdr with
      | none =>
          have hp : nonceProbe ⟨pool0, none :: ps2⟩ = (⟨pool0, ps2⟩, .tookFail) := rfl
          rw [hp]
          have hpt : probeTokens (none :: ps2) = probeTokens ps2 := by simp [probeTokens]
          rw [hpt] at h ⊢
          obtain ⟨h1, h2⟩ := ih ⟨pool0, ps2⟩ h
          refine ⟨by simpa [takeTokens] using h1, ?_⟩
          intro t ht
          simp only [takeTokens, List.filterMap_cons] at ht
          exact h2 t ht
      | some tok =>
          by_cases htk : tok = ""
          · have hp : nonceProbe ⟨pool0, some tok :: ps2⟩ = (⟨pool0, ps2⟩, .tookFail) := by
              simp [nonceProbe, htk]
            rw [hp]
            have hpt : probeTokens (some tok :: ps2) = probeTokens ps2 := by
              simp [probeTokens, htk]
            rw [hpt] at h ⊢
            obtain ⟨h1, h2⟩ := ih ⟨pool0, ps2⟩ h
            refine ⟨by simpa [takeTokens] using h1, ?_⟩
            intro t ht
            simp only [takeTokens, List.filterMap_cons] at ht
            exact h2 t ht
          · have hp : nonceProbe ⟨pool0, some tok :: ps2⟩ =
                (⟨pool0, ps2⟩, .tookProbe tok) := by
              simp [nonceProbe, htk]
            rw [hp]
            have hpt : probeTokens (some tok :: ps2) = tok :: probeTokens ps2 := by
              simp [probeTokens, htk]
            rw [hpt] at h ⊢
            have hperm : (pool0 ++ (depositTokens rest ++ tok :: probeTokens ps2)).Perm
                (tok :: (pool0 ++ (depositTokens rest ++ probeTokens ps2))) := by
              have e1 : pool0 ++ (depositTokens rest ++ tok :: probeTokens ps2) =
                  (pool0 ++ depositTokens rest) ++ tok :: probeTokens ps2 := by
                rw [List.append_assoc]
              have e2 : tok :: ((pool0 ++ depositTokens rest) ++ probeTokens ps2) =
                  tok :: (pool0 ++ (depositTokens rest ++ probeTokens ps2)) := by
                rw [List.append_assoc]
              rw [e1, ← e2]
              exact List.perm_middle
            have hcons : (tok :: (pool0 ++ (depositTokens rest ++ probeTokens ps2))).Nodup :=
              hperm.nodup_iff.mp h
            have htokout : tok ∉ pool0 ++ (depositTokens rest ++ probeTokens ps2) :=
              (List.nodup_cons.mp hcons).1
            obtain ⟨h1, h2⟩ := ih ⟨pool0, ps2⟩ (List.nodup_cons.mp hcons).2
            have htta : takeTokens (NEvent.tookProbe tok :: nonceTrace ⟨pool0, ps2⟩ rest) =
                tok :: takeTokens (nonceTrace ⟨pool0, ps2⟩ rest) := by
              simp [takeTokens]
            rw [htta]
            constructor
            · exact List.nodup_cons.mpr ⟨fun hm => htokout (h2 tok hm), h1⟩
            · intro t ht
              rcases List.mem_cons.mp ht with rfl | hm
              · simp
              · have := h2 t hm
                simp only [List.mem_append, List.mem_cons] at this ⊢
                tauto

theorem nonce_unique_aux : ∀ (ops : List NonceOp) (st : NonceState),
    (st.nonces ++ (depositTokens ops ++ probeTokens st.probes)).Nodup →
    (takeTokens (nonceTrace st ops)).Nodup ∧
    ∀ t ∈ takeTokens (nonceTrace st ops),
      t ∈ st.nonces ++ (depositTokens ops ++ probeTokens st.probes) := by
  intro ops
  induction ops with
  | nil =>
      intro st h
      refine ⟨by simp [nonceTrace, takeTokens], ?_⟩
      intro t ht
      simp [nonceTrace, takeTokens] at ht
  | cons op rest ih =>
      intro st h
      obtain ⟨ns, ps⟩ := st
      cases op with
      | deposit tok =>
          by_cases htok : tok = ""
          · have hstep : nonceStep ⟨ns, ps⟩ (.deposit tok) = (⟨ns, ps⟩, .depIgnored) := by
              simp [nonceStep, htok]
            have htr : nonceTrace ⟨ns, ps⟩ (.deposit tok :: rest) =
                .depIgnored :: nonceTrace ⟨ns, ps⟩ rest := by
              rw [nonceTrace, hstep]
            have hdt : depositTokens (NonceOp.deposit tok :: rest) = depositTokens rest := by
              simp [depositTokens, htok]
            rw [htr, hdt]
            rw [hdt] at h
            obtain ⟨h1, h2⟩ := ih ⟨ns, ps⟩ h
            refine ⟨by simpa [takeTokens] using h1, ?_⟩
            intro t ht
            simp only [takeTokens, List.filterMap_cons] at ht
            exact h2 t ht
          · have hstep : nonceStep ⟨ns, ps⟩ (.deposit tok) =
                (⟨ns ++ [tok], ps⟩, .depOk tok) := by
              simp [nonceStep, htok]
            have htr : nonceTrace ⟨ns, ps⟩ (.deposit tok :: rest) =
                .depOk tok :: nonceTrace ⟨ns ++ [tok], ps⟩ rest := by
              rw [nonceTrace, hstep]
            have hdt : depositTokens (NonceOp.deposit tok :: rest) =
                tok :: depositTokens rest := by
              simp [depositTokens, htok]
            rw [htr, hdt]
            rw [hdt] at h
            have hin : (ns ++ [tok]) ++ (depositTokens rest ++ probeTokens ps) =
                ns ++ (tok :: depositTokens rest ++ probeTokens ps) := by
              simp [List.append_assoc]
            obtain ⟨h1, h2⟩ := ih ⟨ns ++ [tok], ps⟩ (by rw [hin]; simpa using h)
            refine ⟨by simpa [takeTokens] using h1, ?_⟩
            intro t ht
            simp only [takeTokens, List.filterMap_cons] at ht
            have := h2 t ht
            rw [hin] at this
            simpa using this
      | take =>
          cases ns with
          | nil =>
              have htr : nonceTrace ⟨[], ps⟩ (.take :: rest) =
                  (nonceProbe ⟨[], ps⟩).2 :: nonceTrace (nonceProbe ⟨[], ps⟩).1 rest := by
                rw [nonceTrace]
                rfl
              rw [htr]
              have hdt : depositTokens (NonceOp.take :: rest) = depositTokens rest := by
                simp [depositTokens]
              rw [hdt]
              rw [hdt] at h
              exact nonce_probe_aux rest ih [] ps (by simpa using h)
          | cons n p2 =>
              have hdt : depositTokens (NonceOp.take :: rest) = depositTokens rest := by
                simp [depositTokens]
              rw [hdt]
              rw [hdt] at h
              by_cases hn : n = ""
              · have hstep : nonceStep ⟨n :: p2, ps⟩ .take = nonceProbe ⟨p2, ps⟩ := by
                  simp [nonceStep, hn]
                have htr : nonceTrace ⟨n :: p2, ps⟩ (.take :: rest) =
                    (nonceProbe ⟨p2, ps⟩).2 :: nonceTrace (nonceProbe ⟨p2, ps⟩).1 rest := by
                  rw [nonceTrace, hstep]
                rw [htr]
                have hh : (p2 ++ (depositTokens rest ++ probeTokens ps)).Nodup := by
                  have hx : (n :: (p2 ++ (depositTokens rest ++ probeTokens ps))).Nodup := by
                    simpa using h
                  exact hx.of_cons
                obtain ⟨h1, h2⟩ := nonce_probe_aux rest ih p2 ps hh
                refine ⟨h1, ?_⟩
                intro t ht
                have := h2 t ht
                simp only [List.mem_append, List.mem_cons] at this ⊢
                tauto
              · have hstep : nonceStep ⟨n :: p2, ps⟩ .take = (⟨p2, ps⟩, .tookPool n) := by
                  simp [nonceStep, hn]
                have htr : nonceTrace ⟨n :: p2, ps⟩ (.take :: rest) =
                    .tookPool n :: nonceTrace ⟨p2, ps⟩ rest := by
                  rw [nonceTrace, hstep]
                rw [htr]
                have hx : (n :: (p2 ++ (depositTokens rest ++ probeTokens ps))).Nodup := by
                  simpa using h
                have hnout : n ∉ p2 ++ (depositTokens rest ++ probeTokens ps) :=
                  (List.nodup_cons.mp hx).1
                obtain ⟨h1, h2⟩ := ih ⟨p2, ps⟩ (List.nodup_cons.mp hx).2
                have htta : takeTokens (NEvent.tookPool n :: nonceTrace ⟨p2, ps⟩ rest) =
                    n :: takeTokens (nonceTrace ⟨p2, ps⟩ rest) := by
                  simp [takeTokens]
                rw [htta]
                constructor
                · exact List.nodup_cons.mpr ⟨fun hm => hnout (h2 n hm), h1⟩
                · intro t ht
                  rcases List.mem_cons.mp ht with rfl | hm
                  · simp
                  · have := h2 t hm
                    simp only [List.mem_append, List.mem_cons] at this ⊢
                    tauto

/-- C1 counterexample: after depositing the token a twice, two successive
takes both return a with no deposit in between, so the uniqueness property
as claimed fails once a duplicate deposit is allowed. -/
theorem nonce_uniqueness_counterexample :
    ¬ NonceUniqClaim (nonceTrace ⟨[], []⟩
      [.deposit "a", .deposit "a", .take, .take]) := by
  intro hclaim
  obtain ⟨k, hk1, hk2, -⟩ :=
    hclaim 2 3 "a" (by omega) (Or.inl (by decide)) (Or.inl (by decide))
  omega

/-- C1 amended: a take on a reachable non-empty pool removes exactly the
head token and returns it with no probe; and when the deposited tokens and
the probe-supplied tokens are pairwise distinct, no token is ever returned
by two takes (so in particular none recurs without an intervening deposit). -/
theorem nonce_take_spec (ops : List NonceOp) (probes : List (Option String)) :
    (∀ (n : String) (p : List String) (q : List (Option String)),
      nonceRun ⟨[], probes⟩ ops = ⟨n :: p, q⟩ →
      nonceStep ⟨n :: p, q⟩ .take = (⟨p, q⟩, .tookPool n)) ∧
    ((depositTokens ops ++ probeTokens probes).Nodup →
      (takeTokens (nonceTrace ⟨[], probes⟩ ops)).Nodup) := by
  constructor
  · intro n p q hrun
    have hinv := nonceRun_pool_nonempty ops ⟨[], probes⟩ (by intro t ht; simp at ht)
    rw [hrun] at hinv
    have hn : n ≠ "" := hinv n (by simp)
    simp [nonceStep, hn]
  · intro h
    exact (nonce_unique_aux ops ⟨[], probes⟩ (by simpa using h)).1

/-- C1 witness: a deposited token is taken from the pool head without a
probe, and distinct deposits give pairwise distinct take results. -/
theorem nonce_take_spec_witness :
    nonceStep ⟨["a"], []⟩ .take = (⟨[], []⟩, .tookPool "a") ∧
    (takeTokens (nonceTrace ⟨[], [some "c"]⟩
      [.deposit "a", .deposit "b", .take, .take, .take])).Nodup :=
  ⟨(nonce_take_spec [.deposit "a"] []).1 "a" [] [] (by decide),
   (nonce_take_spec [.deposit "a", .deposit "b", .take, .take, .take] [some "c"]).2
     (by decide)⟩

end NodeAcme
